import Mathlib

/-!
Verification of the fontra-compile fontmake compile action
(`src/fontra_compile/compile_fontmake_action.py`) against its
natural-language specification.

The embedding below translates the pure decision logic of the Python
module into Lean:

* the instance synthesizer `addInstances` (axis sorting, label
  cross-product, style naming, user-to-design mapping);
* the glyph order assigner `addGlyphOrder` and its sort key;
* the gasp table augmenter `addMinimalGaspTable`;
* the compiler driver argument construction in
  `CompileFontMakeAction.process` / `compileFromDesignspace`.

Numeric axis coordinates are modelled as `Int`; the fontTools
`map_forward` piecewise-linear mapping is an external collaborator and
is modelled as an opaque per-axis function field `mapForward`.
Persistence (reading and writing designspace and UFO files) is
modelled by pure state-to-state functions on the documents.
-/

namespace FontraCompile

/-- Axis value label, mirroring designspaceLib AxisLabelDescriptor as
used by `addInstances`: a label name, an elidable flag and a user-space
coordinate value. -/
structure AxisLabel where
  name : String
  elidable : Bool
  userValue : Int
  deriving DecidableEq, Repr

/-- Variation axis as consumed by `addInstances`: tag, name, the list
of discrete value labels, and the user-to-design forward mapping
(external fontTools `map_forward`, modelled as a function field). -/
structure Axis where
  tag : String
  name : String
  axisLabels : List AxisLabel
  mapForward : Int → Int

/-- Named instance of a designspace document: family name, style name
and a design-space location stored as an ordered association list from
axis name to coordinate, mirroring the Python dict insertion order. -/
structure DSInstance where
  familyName : String
  styleName : String
  location : List (String × Int)
  deriving DecidableEq, Repr

/-- Designspace document: the fields of designspaceLib
DesignSpaceDocument that `addInstances` reads or writes. -/
structure DSDoc where
  axes : List Axis
  instances : List DSInstance
  elidedFallbackName : Option String

/-- Sort priority of an axis tag, mirroring the `sortOrder` dict in
`addInstances`: wght 0, wdth 1, ital 2, slnt 3, anything else 100. -/
def sortOrderKey (tag : String) : Nat :=
  if tag = "wght" then 0
  else if tag = "wdth" then 1
  else if tag = "ital" then 2
  else if tag = "slnt" then 3
  else 100

/-- Stable sort of the axis list by tag priority, mirroring
`sorted(dsDoc.axes, key=lambda axis: sortOrder.get(axis.tag, 100))`
(Python sorted is stable; `List.insertionSort` with a total preorder
is stable as well). -/
def sortAxes (axes : List Axis) : List Axis :=
  axes.insertionSort (fun a b => sortOrderKey a.tag ≤ sortOrderKey b.tag)

/-- Python truthiness of the fallback name: `dsDoc.elidedFallbackName
or "Regular"` yields "Regular" when the attribute is None or the empty
string. -/
def fallbackOf (doc : DSDoc) : String :=
  match doc.elidedFallbackName with
  | none => "Regular"
  | some s => if s = "" then "Regular" else s

/-- Per-axis label triples, mirroring the `axisLabels` list
comprehension in `addInstances`: for each sorted axis that has at
least one label, the list of (axis name, label name when not elidable
else none, user value) triples. -/
def axisLabelItems (axes : List Axis) : List (List (String × Option String × Int)) :=
  (axes.filter (fun ax => !ax.axisLabels.isEmpty)).map fun ax =>
    ax.axisLabels.map fun l => (ax.name, (if l.elidable then none else some l.name), l.userValue)

/-- Cartesian product of a list of lists in the order produced by
`itertools.product`: the leftmost factor varies slowest. -/
def cartesianProduct : List (List α) → List (List α)
  | [] => [[]]
  | xs :: rest => xs.flatMap fun x => (cartesianProduct rest).map (x :: ·)

/-- Lookup of an axis by name in `axesByName`; `addInstances` only
calls it with names of axes of the document, so the fallback branch
(Python would raise KeyError) is unreachable there. -/
def findAxis (axes : List Axis) (name : String) : Option Axis :=
  axes.find? (fun ax => ax.name = name)

/-- Translation of `mapLocationForward`: map every coordinate of the
location from user space to design space via the forward mapping of
the axis of that name. On a name with no axis (unreachable from
`addInstances`, a KeyError in Python) the value is kept unchanged. -/
def mapLocationForward (location : List (String × Int)) (axes : List Axis) :
    List (String × Int) :=
  location.map fun nv =>
    match findAxis axes nv.1 with
    | some ax => (nv.1, ax.mapForward nv.2)
    | none => nv

/-- Python truthiness filter on the label parts: `[valueLabel for ...
if valueLabel]` keeps a label only when it is neither None nor the
empty string. -/
def truthyLabel : Option String → Option String
  | none => none
  | some s => if s = "" then none else some s

/-- Instance built for one combination of the label cross-product,
mirroring the loop body of `addInstances`. -/
def instanceForCombo (doc : DSDoc) (fallback : String)
    (combo : List (String × Option String × Int)) : DSInstance :=
  let location := combo.map fun item => (item.1, item.2.2)
  let nameParts := combo.filterMap fun item => truthyLabel item.2.1
  let nameParts := if nameParts.isEmpty then [fallback] else nameParts
  let styleName := String.intercalate " " nameParts
  { familyName := "Testing"
    styleName := styleName
    location := mapLocationForward location doc.axes }

/-- Translation of `addInstances`: when the document already declares
instances it is returned unchanged; otherwise the elided fallback name
is normalised, the label cross-product over the sorted labelled axes
is computed and one instance per combination is appended. -/
def addInstances (doc : DSDoc) : DSDoc :=
  if doc.instances.isEmpty then
    let fallback := fallbackOf doc
    let items := axisLabelItems (sortAxes doc.axes)
    let insts := (cartesianProduct items).map (instanceForCombo doc fallback)
    { doc with instances := insts, elidedFallbackName := some fallback }
  else
    doc

/-! Glyph order assigner. -/

/-- Glyph id priority of the four fixed names, mirroring
`_firstFourGIDS.get(glyphName, _nextGID)`: ".notdef" 0, ".null" 1,
"CR" 2, "space" 3, any other name 4. -/
def gidKey (glyphName : String) : Nat :=
  if glyphName = ".notdef" then 0
  else if glyphName = ".null" then 1
  else if glyphName = "CR" then 2
  else if glyphName = "space" then 3
  else 4

/-- Code-point lexicographic order on glyph names, the order Python
sorted uses on str; stated on the underlying character lists so that
it evaluates by kernel reduction. -/
def nameLe (a b : String) : Prop :=
  a.data < b.data ∨ a.data = b.data

instance : DecidableRel nameLe := fun a b =>
  inferInstanceAs (Decidable (a.data < b.data ∨ a.data = b.data))

theorem string_data_inj {a b : String} (h : a.data = b.data) : a = b := by
  cases a; cases b; exact congrArg String.mk h

/-- Equivalence of `nameLe` with the linear order on strings. -/
theorem nameLe_iff (a b : String) : nameLe a b ↔ a ≤ b := by
  unfold nameLe
  constructor
  · rintro (h | h)
    · exact le_of_lt (String.lt_iff_toList_lt.mpr h)
    · exact le_of_eq (string_data_inj h)
  · intro h
    rcases lt_or_eq_of_le h with h | h
    · exact Or.inl (String.lt_iff_toList_lt.mp h)
    · exact Or.inr (congrArg String.data h)

instance : IsTotal String nameLe where
  total a b := by
    rcases le_total a b with h | h
    · exact Or.inl ((nameLe_iff a b).mpr h)
    · exact Or.inr ((nameLe_iff b a).mpr h)

instance : IsTrans String nameLe where
  trans a b c hab hbc :=
    (nameLe_iff a c).mpr (le_trans ((nameLe_iff a b).mp hab) ((nameLe_iff b c).mp hbc))

instance : IsAntisymm String nameLe where
  antisymm a b hab hba :=
    le_antisymm ((nameLe_iff a b).mp hab) ((nameLe_iff b a).mp hba)

/-- Order on glyph names induced by the two-part sort key of
`_glyphSortKeyFunc`: lexicographic on (gid priority, name). -/
def glyphKeyLe (a b : String) : Prop :=
  gidKey a < gidKey b ∨ (gidKey a = gidKey b ∧ nameLe a b)

instance : DecidableRel glyphKeyLe := fun a b =>
  inferInstanceAs (Decidable (gidKey a < gidKey b ∨ (gidKey a = gidKey b ∧ nameLe a b)))

instance : IsTotal String glyphKeyLe where
  total a b := by
    unfold glyphKeyLe
    rcases Nat.lt_trichotomy (gidKey a) (gidKey b) with h | h | h
    · exact Or.inl (Or.inl h)
    · rcases total_of nameLe a b with h2 | h2
      · exact Or.inl (Or.inr ⟨h, h2⟩)
      · exact Or.inr (Or.inr ⟨h.symm, h2⟩)
    · exact Or.inr (Or.inl h)

instance : IsTrans String glyphKeyLe where
  trans a b c hab hbc := by
    unfold glyphKeyLe at *
    rcases hab with h1 | ⟨h1, h1'⟩ <;> rcases hbc with h2 | ⟨h2, h2'⟩
    · exact Or.inl (h1.trans h2)
    · exact Or.inl (h2 ▸ h1)
    · exact Or.inl (h1 ▸ h2)
    · exact Or.inr ⟨h1.trans h2, trans_of nameLe h1' h2'⟩

instance : IsAntisymm String glyphKeyLe where
  antisymm a b hab hba := by
    rcases hab with h1 | ⟨h1, h1'⟩ <;> rcases hba with h2 | ⟨h2, h2'⟩
    · exact absurd h2 (Nat.lt_asymm h1)
    · exact absurd h1 (h2 ▸ lt_irrefl _)
    · exact absurd h2 (h1 ▸ lt_irrefl _)
    · exact antisymm h1' h2'

/-- Computed glyph order: the glyph names sorted by the two-part key,
mirroring `sorted(glyphSet.keys(), key=_glyphSortKeyFunc)`. The sort
key is injective in the name, so any correct sorting algorithm gives
the same result as Python sorted. -/
def glyphOrderFor (glyphNames : List String) : List String :=
  glyphNames.insertionSort glyphKeyLe

/-- State of the default source UFO as touched by `addGlyphOrder`:
the optional `public.glyphOrder` lib key and the glyph set (list of
glyph names). -/
structure UFOState where
  publicGlyphOrder : Option (List String)
  glyphNames : List String
  deriving DecidableEq, Repr

/-- Translation of `addGlyphOrder` restricted to the default-source
UFO state it reads and writes: when the lib has no `public.glyphOrder`
key, the computed order is stored; otherwise nothing is written. -/
def addGlyphOrder (u : UFOState) : UFOState :=
  match u.publicGlyphOrder with
  | none => { u with publicGlyphOrder := some (glyphOrderFor u.glyphNames) }
  | some _ => u

/-! Gasp table augmenter. -/

/-- Gasp range record: maximal PPEM of the range and the behavior
flags list. -/
structure GaspRangeRecord where
  rangeMaxPPEM : Nat
  rangeGaspBehavior : List Nat
  deriving DecidableEq, Repr

/-- Font info record of the default source as read and written by
`addMinimalGaspTable`: the gasp range records attribute plus the
remaining attributes, which readInfo and writeInfo round-trip
unchanged. -/
structure FontInfo where
  openTypeGaspRangeRecords : Option (List GaspRangeRecord)
  otherAttributes : List (String × String)
  deriving DecidableEq, Repr

/-- Translation of `addMinimalGaspTable` restricted to the font info
record it rewrites: the gasp range records attribute is set to the
single fixed range, every other attribute is written back as read. -/
def addMinimalGaspTable (fi : FontInfo) : FontInfo :=
  { fi with openTypeGaspRangeRecords := some [⟨0xFFFF, [0, 1, 2, 3]⟩] }

/-! Compiler driver. -/

/-- Python str.lower on a path suffix, modelled as per-character
lowercasing of the character list (suffixes here are ASCII, where the
two coincide). -/
def lowerString (s : String) : String :=
  ⟨s.data.map Char.toLower⟩

/-- Output format token selection of `compileFromDesignspace`, a
function of whether the source path is a designspace and of the
lowercased destination suffix. -/
def fontmakeOutputType (sourceSuffix destSuffix : String) : String :=
  let isVariable := sourceSuffix = ".designspace"
  if lowerString destSuffix ≠ ".ttf" then
    if isVariable then "variable-cff2" else "otf"
  else
    if isVariable then "variable" else "ttf"

/-- Extra argument construction of `CompileFontMakeAction.process`:
every option name becomes a flag of the form --name, and a truthy
(non-empty) value is appended as the following argument. -/
def extraArguments (options : List (String × String)) : List String :=
  options.flatMap fun ov =>
    if ov.2 = "" then ["--" ++ ov.1] else ["--" ++ ov.1, ov.2]

/-- Argument vector of `compileFromDesignspace` joined with the extra
arguments appended by `process`. -/
def fontmakeArguments (sourceSuffix sourcePath destSuffix destPath : String)
    (options : List (String × String)) : List String :=
  [(if sourceSuffix = ".ufo" then "-u" else "-m"),
   sourcePath,
   "-o",
   fontmakeOutputType sourceSuffix destSuffix,
   "--output-path",
   destPath] ++ extraArguments options

/-- Source file suffix chosen by `process`: ".designspace" for a
variable project, ".ufo" for a static one (from
`"temp." + ("designspace" if isVariable else "ufo")`). -/
def processSourceSuffix (isVariable : Bool) : String :=
  if isVariable then ".designspace" else ".ufo"

/-- Compiler argument vector as assembled by `process` for a project
of the given variation-ness. -/
def processArguments (isVariable : Bool) (sourcePath destSuffix destPath : String)
    (options : List (String × String)) : List String :=
  fontmakeArguments (processSourceSuffix isVariable) sourcePath destSuffix destPath options

/-! Definitions taken from the wording of the specification, used to
state the refinement claims; the theorems below compare them with the
definitions translated from the source. -/

/-- Four fixed glyph names of the specification sorting invariant, in
the stated relative order. -/
def firstFourGlyphNames : List String :=
  [".notdef", ".null", "CR", "space"]

/-- Glyph order as worded by the specification: whichever of the four
fixed names are present first, in that exact relative order, followed
by the remaining names in ascending name order. -/
def specGlyphOrder (names : List String) : List String :=
  firstFourGlyphNames.filter (fun g => decide (g ∈ names))
    ++ (names.filter (fun g => decide (g ∉ firstFourGlyphNames))).insertionSort nameLe

/-- Output format token table as worded in the specification: static
and non-ttf yields otf, static and ttf yields ttf, variable and
non-ttf yields variable-cff2, variable and ttf yields variable. -/
def specFormatToken (isVariable ttfFlavored : Bool) : String :=
  match isVariable, ttfFlavored with
  | false, false => "otf"
  | false, true => "ttf"
  | true, false => "variable-cff2"
  | true, true => "variable"

/-- Source path flag as worded by the specification: -u for a single
UFO, -m for a designspace. -/
def specSourceFlag (isVariable : Bool) : String :=
  if isVariable then "-m" else "-u"

/-- Pass-through option arguments as worded by the specification: each
option name becomes a flag of the form --name, followed by its value
when the value is non-empty and by nothing when it is empty. -/
def specOptionArguments (options : List (String × String)) : List String :=
  options.flatMap fun ov => ("--" ++ ov.1) :: (if ov.2 = "" then [] else [ov.2])

/-! Helper lemmas. -/

/-- Length of the cartesian product is the product of the lengths. -/
theorem length_cartesianProduct (ls : List (List α)) :
    (cartesianProduct ls).length = (ls.map List.length).prod := by
  induction ls with
  | nil => rfl
  | cons xs rest ih =>
    have hconst : (List.length ∘ fun x => List.map (x :: ·) (cartesianProduct rest))
        = fun _ => (cartesianProduct rest).length := funext fun x => by simp
    simp only [cartesianProduct, List.length_flatMap, hconst, List.map_const',
      List.sum_replicate, smul_eq_mul, List.map_cons, List.prod_cons, ih]

/-- Membership in the cartesian product selects one element from each
factor, in order. -/
theorem mem_cartesianProduct {ls : List (List α)} {combo : List α} :
    combo ∈ cartesianProduct ls ↔ List.Forall₂ (· ∈ ·) combo ls := by
  induction ls generalizing combo with
  | nil =>
    simp only [cartesianProduct, List.mem_singleton]
    constructor
    · rintro rfl; exact List.Forall₂.nil
    · rintro ⟨⟩; rfl
  | cons xs rest ih =>
    simp only [cartesianProduct, List.mem_flatMap, List.mem_map]
    constructor
    · rintro ⟨x, hx, t, ht, rfl⟩
      exact List.Forall₂.cons hx (ih.mp ht)
    · intro h
      cases h with
      | cons hx ht => exact ⟨_, hx, _, ih.mpr ht, rfl⟩

/-- Mapping a location forward preserves the axis names, in order. -/
theorem map_fst_mapLocationForward (location : List (String × Int)) (axes : List Axis) :
    (mapLocationForward location axes).map Prod.fst = location.map Prod.fst := by
  unfold mapLocationForward
  rw [List.map_map]
  refine List.map_congr_left fun nv _ => ?_
  simp only [Function.comp]
  cases findAxis axes nv.1 <;> rfl

/-- Extra arguments built by `process` agree with the specification
wording of the pass-through options. -/
theorem extraArguments_eq_spec (options : List (String × String)) :
    extraArguments options = specOptionArguments options := by
  unfold extraArguments specOptionArguments
  induction options with
  | nil => rfl
  | cons ov rest ih =>
    by_cases h : ov.2 = "" <;> simp [h, ih]

/-! Example documents used by the witnesses and counterexamples. -/

/-- Instance as a user would declare it, used to exercise the no-op
branch of `addInstances`. -/
def presetInstance : DSInstance :=
  { familyName := "Fam", styleName := "Style", location := [("Weight", 400)] }

/-- Document that already declares one instance. -/
def presetDoc : DSDoc :=
  { axes := [], instances := [presetInstance], elidedFallbackName := none }

/-- Weight axis of scenario A of the specification: labels Regular at
400 (elidable) and Bold at 700, with a visible forward mapping. -/
def wghtAxis : Axis :=
  { tag := "wght", name := "Weight"
    axisLabels := [⟨"Regular", true, 400⟩, ⟨"Bold", false, 700⟩]
    mapForward := fun v => v + 5 }

/-- Document of scenario A: one weight axis, no declared instances. -/
def scenarioADoc : DSDoc :=
  { axes := [wghtAxis], instances := [], elidedFallbackName := none }

/-- UFO state whose lib has no glyph order yet. -/
def glyphProjectUnset : UFOState :=
  { publicGlyphOrder := none, glyphNames := ["B", "A", "space"] }

/-- UFO state whose lib already declares a glyph order. -/
def glyphProjectSet : UFOState :=
  { publicGlyphOrder := some ["X", "Y"], glyphNames := ["B", "A"] }

/-- Axis with no value labels, for the mixed example document. -/
def slntAxis : Axis :=
  { tag := "slnt", name := "Slant", axisLabels := [], mapForward := fun v => v }

/-- Width axis with two labels, one elidable. -/
def wdthAxis : Axis :=
  { tag := "wdth", name := "Width"
    axisLabels := [⟨"Condensed", false, 50⟩, ⟨"Normal", true, 100⟩]
    mapForward := fun v => 2 * v }

/-- Document with one labelled and one unlabelled axis and no
declared instances. -/
def mixedDoc : DSDoc :=
  { axes := [slntAxis, wdthAxis], instances := [], elidedFallbackName := some "Plain" }

/-- Sorting the axes is a permutation. -/
theorem sortAxes_perm (axes : List Axis) : List.Perm (sortAxes axes) axes :=
  List.perm_insertionSort _ axes

/-- Names selected by a combination of the label cross-product are
exactly the names of the labelled axes, in order. -/
theorem combo_map_fst {axes' : List Axis} {combo : List (String × Option String × Int)}
    (hc : combo ∈ cartesianProduct (axisLabelItems axes')) :
    combo.map Prod.fst
      = ((axes'.filter fun a => !a.axisLabels.isEmpty).map Axis.name) := by
  rw [mem_cartesianProduct] at hc
  unfold axisLabelItems at hc
  set l := axes'.filter fun a => !a.axisLabels.isEmpty with hl
  clear_value l
  clear hl
  induction l generalizing combo with
  | nil =>
    rw [List.map_nil, List.forall₂_nil_right_iff] at hc
    simp [hc]
  | cons ax rest ih =>
    rw [List.map_cons] at hc
    cases hc with
    | cons hx ht =>
      rename_i x combo'
      obtain ⟨lb, _, rfl⟩ := List.mem_map.mp hx
      simp [ih ht]

/-- Keys of a synthesized instance location, in order: the names of
the labelled axes after priority sorting. -/
theorem instance_location_keys (doc : DSDoc) (fallback : String)
    {combo : List (String × Option String × Int)}
    (hc : combo ∈ cartesianProduct (axisLabelItems (sortAxes doc.axes))) :
    (instanceForCombo doc fallback combo).location.map Prod.fst
      = (((sortAxes doc.axes).filter fun a => !a.axisLabels.isEmpty).map Axis.name) := by
  unfold instanceForCombo
  rw [map_fst_mapLocationForward, List.map_map]
  have : (Prod.fst ∘ fun item : String × Option String × Int => (item.1, item.2.2))
      = Prod.fst := rfl
  rw [this, combo_map_fst hc]

/-! Claim theorems. -/

/-- C2: for every combination of project variation-ness and
destination suffix, the driver selects exactly the output format token
of the specification table, and never any other token. -/
theorem format_token_selection (isVariable : Bool) (destSuffix : String) :
    fontmakeOutputType (processSourceSuffix isVariable) destSuffix
        = specFormatToken isVariable (decide (lowerString destSuffix = ".ttf"))
      ∧ fontmakeOutputType (processSourceSuffix isVariable) destSuffix
          ∈ ["otf", "ttf", "variable", "variable-cff2"] := by
  have h1 : fontmakeOutputType (processSourceSuffix isVariable) destSuffix
      = specFormatToken isVariable (decide (lowerString destSuffix = ".ttf")) := by
    cases isVariable <;> by_cases h : lowerString destSuffix = ".ttf" <;>
      simp [fontmakeOutputType, processSourceSuffix, specFormatToken, h]
  refine ⟨h1, ?_⟩
  rw [h1]
  cases isVariable <;> cases decide (lowerString destSuffix = ".ttf") <;> simp [specFormatToken]

/-- C9: the argument vector passed to fontmake is the source path flag
(-u for a UFO, -m for a designspace), the source path, -o, the
resolved format token, --output-path, the destination path, then the
pass-through options in order, each as a --name flag followed by its
value exactly when the value is non-empty. -/
theorem compiler_argument_vector (isVariable : Bool)
    (sourcePath destSuffix destPath : String) (options : List (String × String)) :
    processArguments isVariable sourcePath destSuffix destPath options
      = specSourceFlag isVariable :: sourcePath :: "-o"
          :: fontmakeOutputType (processSourceSuffix isVariable) destSuffix
          :: "--output-path" :: destPath :: specOptionArguments options := by
  cases isVariable <;>
    simp [processArguments, fontmakeArguments, processSourceSuffix, specSourceFlag,
      extraArguments_eq_spec]

/-- C8: after any invocation of the table augmenter the stored gasp
range records are exactly the single fixed entry with maximal PPEM
65535 and behavior flags 0 to 3, and reapplying the operation stores
the same font info record. -/
theorem gasp_table_augmenter (fi : FontInfo) :
    (addMinimalGaspTable fi).openTypeGaspRangeRecords = some [⟨65535, [0, 1, 2, 3]⟩]
      ∧ addMinimalGaspTable (addMinimalGaspTable fi) = addMinimalGaspTable fi :=
  ⟨rfl, rfl⟩

/-- C7: when the document already declares at least one instance,
`addInstances` returns the document exactly as it was. -/
theorem instance_synthesizer_noop (doc : DSDoc) (h : doc.instances ≠ []) :
    addInstances doc = doc := by
  unfold addInstances
  rw [if_neg]
  simpa using h

/-- Witness for C7 at a document with one declared instance. -/
theorem instance_synthesizer_noop_witness :
    presetDoc.instances ≠ [] ∧ addInstances presetDoc = presetDoc :=
  ⟨by decide, instance_synthesizer_noop presetDoc (by decide)⟩

/-- C5: the glyph order assigner leaves an already declared glyph
order unchanged, and running it twice equals running it once. -/
theorem glyph_order_assigner_idempotent (u : UFOState) :
    (∀ o, u.publicGlyphOrder = some o → addGlyphOrder u = u)
      ∧ addGlyphOrder (addGlyphOrder u) = addGlyphOrder u := by
  constructor
  · intro o ho
    simp [addGlyphOrder, ho]
  · cases h : u.publicGlyphOrder <;> simp [addGlyphOrder, h]

/-- Witness for C5 at a project with a declared order and at one
without. -/
theorem glyph_order_assigner_idempotent_witness :
    addGlyphOrder glyphProjectSet = glyphProjectSet
      ∧ addGlyphOrder (addGlyphOrder glyphProjectUnset) = addGlyphOrder glyphProjectUnset :=
  ⟨(glyph_order_assigner_idempotent glyphProjectSet).1 ["X", "Y"] rfl,
   (glyph_order_assigner_idempotent glyphProjectUnset).2⟩

/-- C10: every instance synthesized by `addInstances` carries the
hard-coded family name Testing. -/
theorem synthesized_family_name (doc : DSDoc) (h : doc.instances = []) :
    ∀ inst ∈ (addInstances doc).instances, inst.familyName = "Testing" := by
  intro inst hmem
  unfold addInstances at hmem
  rw [if_pos (by simp [h])] at hmem
  simp only [List.mem_map] at hmem
  obtain ⟨combo, _, rfl⟩ := hmem
  rfl

/-- Witness for C10 at the scenario A document. -/
theorem synthesized_family_name_witness :
    scenarioADoc.instances = []
      ∧ ∀ inst ∈ (addInstances scenarioADoc).instances, inst.familyName = "Testing" :=
  ⟨rfl, synthesized_family_name scenarioADoc rfl⟩

/-- Glyph id priority of a fixed name is below the overflow index. -/
theorem gidKey_lt_of_mem {g : String} (h : g ∈ firstFourGlyphNames) : gidKey g < 4 := by
  simp only [firstFourGlyphNames, List.mem_cons, List.not_mem_nil, or_false] at h
  rcases h with rfl | rfl | rfl | rfl <;> decide

/-- Glyph id priority of any other name is the overflow index. -/
theorem gidKey_eq_four_of_not_mem {g : String} (h : g ∉ firstFourGlyphNames) : gidKey g = 4 := by
  simp only [firstFourGlyphNames, List.mem_cons, List.mem_singleton, not_or] at h
  obtain ⟨h1, h2, h3, h4⟩ := h
  simp [gidKey, h1, h2, h3, h4]

/-- Four fixed glyph names are sorted under the glyph sort key. -/
theorem sorted_firstFour : List.Sorted glyphKeyLe firstFourGlyphNames := by decide

/-- Specified glyph order is sorted under the glyph sort key. -/
theorem sorted_specGlyphOrder (names : List String) :
    List.Sorted glyphKeyLe (specGlyphOrder names) := by
  unfold specGlyphOrder
  rw [List.Sorted, List.pairwise_append]
  refine ⟨sorted_firstFour.filter _, ?_, ?_⟩
  · have hs : List.Sorted nameLe
        ((names.filter fun g => decide (g ∉ firstFourGlyphNames)).insertionSort nameLe) :=
      List.sorted_insertionSort nameLe _
    refine hs.imp_of_mem fun {a b} ha hb hab => ?_
    have ha4 : gidKey a = 4 := by
      have := (List.mem_insertionSort nameLe).mp ha
      have := (List.mem_filter.mp this).2
      exact gidKey_eq_four_of_not_mem (by simpa using this)
    have hb4 : gidKey b = 4 := by
      have := (List.mem_insertionSort nameLe).mp hb
      have := (List.mem_filter.mp this).2
      exact gidKey_eq_four_of_not_mem (by simpa using this)
    exact Or.inr ⟨ha4.trans hb4.symm, hab⟩
  · intro a ha b hb
    have ha4 : gidKey a < 4 := gidKey_lt_of_mem (List.mem_filter.mp ha).1
    have hb4 : gidKey b = 4 := by
      have := (List.mem_insertionSort nameLe).mp hb
      have := (List.mem_filter.mp this).2
      exact gidKey_eq_four_of_not_mem (by simpa using this)
    exact Or.inl (by omega)

/-- Specified glyph order has no duplicates when the glyph set has
none. -/
theorem nodup_specGlyphOrder {names : List String} (h : names.Nodup) :
    (specGlyphOrder names).Nodup := by
  unfold specGlyphOrder
  rw [List.nodup_append]
  refine ⟨?_, ?_, ?_⟩
  · exact List.Nodup.filter _ (by decide)
  · exact ((List.perm_insertionSort nameLe _).nodup_iff).mpr (h.filter _)
  · intro a ha hb
    have h1 : a ∈ firstFourGlyphNames := (List.mem_filter.mp ha).1
    have h2 := (List.mem_filter.mp ((List.mem_insertionSort nameLe).mp hb)).2
    simp only [decide_eq_true_eq] at h2
    exact h2 h1

/-- Specified glyph order is a permutation of the glyph set. -/
theorem perm_specGlyphOrder {names : List String} (h : names.Nodup) :
    List.Perm (specGlyphOrder names) names := by
  refine (List.perm_ext_iff_of_nodup (nodup_specGlyphOrder h) h).mpr fun a => ?_
  unfold specGlyphOrder
  simp only [List.mem_append, List.mem_filter, List.mem_insertionSort, decide_eq_true_eq]
  constructor
  · rintro (⟨_, ha⟩ | ⟨ha, _⟩) <;> exact ha
  · intro ha
    by_cases hf : a ∈ firstFourGlyphNames
    · exact Or.inl ⟨hf, ha⟩
    · exact Or.inr ⟨ha, hf⟩

/-- C4: on a duplicate-free glyph set, the computed glyph order places
whichever of the four fixed names are present first, in their fixed
relative order, followed by the remaining names in ascending name
order; moreover the result depends only on the glyph set, not on the
enumeration order. -/
theorem glyph_order_decomposition (names : List String) (h : names.Nodup) :
    glyphOrderFor names = specGlyphOrder names
      ∧ ∀ names2, List.Perm names2 names → glyphOrderFor names2 = glyphOrderFor names := by
  constructor
  · refine List.eq_of_perm_of_sorted ?_ (List.sorted_insertionSort glyphKeyLe names)
      (sorted_specGlyphOrder names)
    exact (List.perm_insertionSort glyphKeyLe names).trans (perm_specGlyphOrder h).symm
  · intro names2 hp
    refine List.eq_of_perm_of_sorted ?_ (List.sorted_insertionSort glyphKeyLe names2)
      (List.sorted_insertionSort glyphKeyLe names)
    exact (List.perm_insertionSort glyphKeyLe names2).trans
      (hp.trans (List.perm_insertionSort glyphKeyLe names).symm)

/-- Witness for C4 at the glyph set of scenario C of the
specification, also checking the concrete computed order. -/
theorem glyph_order_decomposition_witness :
    (["A", "space", ".notdef", "B"] : List String).Nodup
      ∧ glyphOrderFor ["A", "space", ".notdef", "B"] = [".notdef", "space", "A", "B"]
      ∧ (glyphOrderFor ["A", "space", ".notdef", "B"]
            = specGlyphOrder ["A", "space", ".notdef", "B"]
          ∧ ∀ names2, List.Perm names2 ["A", "space", ".notdef", "B"] →
              glyphOrderFor names2 = glyphOrderFor ["A", "space", ".notdef", "B"]) :=
  ⟨by decide, by decide, glyph_order_decomposition ["A", "space", ".notdef", "B"] (by decide)⟩

/-- Members of a pointwise-membership pair come from some factor. -/
theorem forall₂_mem_right {l₁ : List α} {l₂ : List (List α)}
    (h : List.Forall₂ (· ∈ ·) l₁ l₂) : ∀ x ∈ l₁, ∃ ys ∈ l₂, x ∈ ys := by
  induction h with
  | nil => simp
  | cons hx ht ih =>
    intro x hm
    rcases List.mem_cons.mp hm with rfl | hm
    · exact ⟨_, List.mem_cons_self _ _, hx⟩
    · obtain ⟨ys, h1, h2⟩ := ih x hm
      exact ⟨ys, List.mem_cons_of_mem _ h1, h2⟩

/-- Every item of a combination of the label cross-product is the
triple of some label of some axis of the list. -/
theorem combo_item_src {axes' : List Axis} {combo : List (String × Option String × Int)}
    (hc : combo ∈ cartesianProduct (axisLabelItems axes')) :
    ∀ item ∈ combo, ∃ ax ∈ axes', ∃ l ∈ ax.axisLabels,
      item = (ax.name, (if l.elidable then none else some l.name), l.userValue) := by
  rw [mem_cartesianProduct] at hc
  unfold axisLabelItems at hc
  intro item hitem
  obtain ⟨ys, hys, hin⟩ := forall₂_mem_right hc item hitem
  obtain ⟨ax, haxf, rfl⟩ := List.mem_map.mp hys
  obtain ⟨l, hl, rfl⟩ := List.mem_map.mp hin
  exact ⟨ax, (List.mem_filter.mp haxf).1, l, hl, rfl⟩

/-- Intercalating a one-element list gives its element. -/
theorem intercalate_singleton (s a : String) : String.intercalate s [a] = a := rfl

/-- Axis with a single non-elidable label whose name is the empty
string. -/
def emptyLabelAxis : Axis :=
  { tag := "wght", name := "Weight"
    axisLabels := [⟨"", false, 400⟩]
    mapForward := fun v => v }

/-- Document whose only axis label has an empty name. -/
def emptyLabelDoc : DSDoc :=
  { axes := [emptyLabelAxis], instances := [], elidedFallbackName := none }

/-- C6 fails on the code: at a document whose only combination
carries a single non-elided label named by the empty string, the
space-joined sequence of the non-elided labels is the empty string,
but the code falls back to Regular because Python truthiness also
drops empty label names. -/
theorem synthesized_style_name_cex :
    cartesianProduct (axisLabelItems (sortAxes emptyLabelDoc.axes))
        = [[("Weight", some "", 400)]]
      ∧ (addInstances emptyLabelDoc).instances.map DSInstance.styleName = ["Regular"]
      ∧ ("Regular" : String) ≠ String.intercalate " " [""] :=
  ⟨by decide, by decide, by decide⟩

/-- C6 amended: on documents whose label names are non-empty and
whose declared fallback name, if any, is non-empty, every synthesized
style name is the space-joined sequence of the non-elided labels of
its combination, or the declared fallback name (default Regular) when
every contributing label is elided. -/
theorem synthesized_style_names (doc : DSDoc) (h : doc.instances = [])
    (hlab : ∀ ax ∈ doc.axes, ∀ l ∈ ax.axisLabels, l.name ≠ "")
    (hfb : doc.elidedFallbackName ≠ some "") :
    (addInstances doc).instances.map DSInstance.styleName
      = (cartesianProduct (axisLabelItems (sortAxes doc.axes))).map fun combo =>
          if (combo.filterMap fun item => item.2.1) = [] then
            doc.elidedFallbackName.getD "Regular"
          else String.intercalate " " (combo.filterMap fun item => item.2.1) := by
  have hout : (addInstances doc).instances
      = (cartesianProduct (axisLabelItems (sortAxes doc.axes))).map
          (instanceForCombo doc (fallbackOf doc)) := by
    unfold addInstances
    rw [if_pos (by simp [h])]
  rw [hout, List.map_map]
  refine List.map_congr_left fun combo hcombo => ?_
  have htr : ∀ item ∈ combo, truthyLabel item.2.1 = item.2.1 := by
    intro item hitem
    obtain ⟨ax, haxm, l, hl, rfl⟩ := combo_item_src hcombo item hitem
    have haxdoc : ax ∈ doc.axes := (sortAxes_perm doc.axes).mem_iff.mp haxm
    have hname := hlab ax haxdoc l hl
    by_cases he : l.elidable <;> simp [truthyLabel, he, hname]
  have hparts : (combo.filterMap fun item => truthyLabel item.2.1)
      = combo.filterMap fun item => item.2.1 := List.filterMap_congr htr
  have hfb' : fallbackOf doc = doc.elidedFallbackName.getD "Regular" := by
    unfold fallbackOf
    cases hd : doc.elidedFallbackName with
    | none => rfl
    | some s =>
      have hs : s ≠ "" := by
        rintro rfl
        exact hfb hd
      simp [hs]
  simp only [Function.comp, instanceForCombo]
  rw [hparts]
  by_cases hempty : (combo.filterMap fun item => item.2.1) = []
  · simp [hempty, hfb', intercalate_singleton]
  · simp [hempty, List.isEmpty_iff]

/-- Witness for the amended C6 at the scenario A document, also
checking the concrete synthesized instances. -/
theorem synthesized_style_names_witness :
    (scenarioADoc.instances = []
        ∧ (∀ ax ∈ scenarioADoc.axes, ∀ l ∈ ax.axisLabels, l.name ≠ "")
        ∧ scenarioADoc.elidedFallbackName ≠ some "")
      ∧ (addInstances scenarioADoc).instances
          = [{ familyName := "Testing", styleName := "Regular", location := [("Weight", 405)] },
             { familyName := "Testing", styleName := "Bold", location := [("Weight", 705)] }]
      ∧ (addInstances scenarioADoc).instances.map DSInstance.styleName
          = (cartesianProduct (axisLabelItems (sortAxes scenarioADoc.axes))).map fun combo =>
              if (combo.filterMap fun item => item.2.1) = [] then
                scenarioADoc.elidedFallbackName.getD "Regular"
              else String.intercalate " " (combo.filterMap fun item => item.2.1) :=
  ⟨⟨rfl, by decide, by decide⟩, by decide,
   synthesized_style_names scenarioADoc rfl (by decide) (by decide)⟩

/-- C1 fails on the code: at a document with an unlabelled axis, the
synthesized instance location does not cover that axis. -/
theorem location_covers_all_axes_cex :
    ¬ ∀ inst ∈ (addInstances mixedDoc).instances,
        ∀ ax ∈ mixedDoc.axes, ax.name ∈ inst.location.map Prod.fst := by
  decide

/-- C1 amended: every synthesized instance location specifies a value
for exactly the axes that carry at least one discrete value label;
axes without labels are absent from the location. -/
theorem location_covers_labeled_axes (doc : DSDoc) (h : doc.instances = [])
    (hnd : (doc.axes.map Axis.name).Nodup) :
    ∀ inst ∈ (addInstances doc).instances, ∀ ax ∈ doc.axes,
      (ax.name ∈ inst.location.map Prod.fst ↔ ax.axisLabels ≠ []) := by
  intro inst hmem ax hax
  unfold addInstances at hmem
  rw [if_pos (by simp [h])] at hmem
  simp only [List.mem_map] at hmem
  obtain ⟨combo, hcombo, rfl⟩ := hmem
  rw [instance_location_keys doc (fallbackOf doc) hcombo]
  constructor
  · intro hin
    obtain ⟨ax', hax', hname⟩ := List.mem_map.mp hin
    obtain ⟨hax'mem, hax'lab⟩ := List.mem_filter.mp hax'
    have hax'doc : ax' ∈ doc.axes := (sortAxes_perm doc.axes).mem_iff.mp hax'mem
    have : ax' = ax := List.inj_on_of_nodup_map hnd hax'doc hax hname
    subst this
    simpa using hax'lab
  · intro hlab
    have haxs : ax ∈ sortAxes doc.axes := (sortAxes_perm doc.axes).symm.mem_iff.mp hax
    have : ax ∈ (sortAxes doc.axes).filter fun a => !a.axisLabels.isEmpty :=
      List.mem_filter.mpr ⟨haxs, by simpa using hlab⟩
    exact List.mem_map.mpr ⟨ax, this, rfl⟩

/-- C3: with zero declared instances, the number of synthesized
instances is the product of the label counts over the axes that have
at least one label; when no axis has labels, exactly one instance is
produced, with the elided fallback name as its style name. -/
theorem instance_count_product (doc : DSDoc) (h : doc.instances = []) :
    (addInstances doc).instances.length
        = ((doc.axes.filter fun ax => !ax.axisLabels.isEmpty).map
            fun ax => ax.axisLabels.length).prod
      ∧ ((∀ ax ∈ doc.axes, ax.axisLabels = []) →
          (addInstances doc).instances
            = [{ familyName := "Testing", styleName := fallbackOf doc, location := [] }]) := by
  have hout : (addInstances doc).instances
      = (cartesianProduct (axisLabelItems (sortAxes doc.axes))).map
          (instanceForCombo doc (fallbackOf doc)) := by
    unfold addInstances
    rw [if_pos (by simp [h])]
  constructor
  · rw [hout, List.length_map, length_cartesianProduct]
    unfold axisLabelItems
    rw [List.map_map]
    have hlen : (List.length ∘ fun ax : Axis => ax.axisLabels.map fun l =>
        (ax.name, (if l.elidable then none else some l.name), l.userValue))
        = fun ax : Axis => ax.axisLabels.length := funext fun ax => by simp
    rw [hlen]
    exact List.Perm.prod_eq (((sortAxes_perm doc.axes).filter _).map _)
  · intro hall
    have hfilter : (sortAxes doc.axes).filter (fun ax => !ax.axisLabels.isEmpty) = [] := by
      rw [List.filter_eq_nil_iff]
      intro ax hax
      simp [hall ax ((sortAxes_perm doc.axes).mem_iff.mp hax)]
    rw [hout]
    unfold axisLabelItems
    rw [hfilter, List.map_nil]
    rfl

/-- Witness for C3 at the mixed example document: one labelled axis
with two labels and one unlabelled axis give two instances. -/
theorem instance_count_product_witness :
    mixedDoc.instances = []
      ∧ ((addInstances mixedDoc).instances.length
            = ((mixedDoc.axes.filter fun ax => !ax.axisLabels.isEmpty).map
                fun ax => ax.axisLabels.length).prod
          ∧ ((∀ ax ∈ mixedDoc.axes, ax.axisLabels = []) →
              (addInstances mixedDoc).instances
                = [{ familyName := "Testing", styleName := fallbackOf mixedDoc,
                     location := [] }])) :=
  ⟨rfl, instance_count_product mixedDoc rfl⟩

/-- Witness for the amended C1 at the mixed example document. -/
theorem location_covers_labeled_axes_witness :
    (mixedDoc.instances = [] ∧ (mixedDoc.axes.map Axis.name).Nodup)
      ∧ ∀ inst ∈ (addInstances mixedDoc).instances, ∀ ax ∈ mixedDoc.axes,
          (ax.name ∈ inst.location.map Prod.fst ↔ ax.axisLabels ≠ []) :=
  ⟨⟨rfl, by decide⟩, location_covers_labeled_axes mixedDoc rfl (by decide)⟩

end FontraCompile
